import Mathlib

/-!
Verification of the pattern-detector core of the claude-auto-skill repository.

The definitions below are a shallow embedding of `src/core/pattern_detector.py`.
Python floats are modelled as real numbers, `datetime` instants as real-valued
seconds (subtraction of two instants yields seconds; `timedelta.days` is the
floor of that difference divided by 86400, matching Python's floor-towards
negative-infinity semantics).  A single ambient instant `now` models the
`datetime.now(timezone.utc)` calls of one run.

The collaborator modules `event_store.py` and `sequence_matcher.py` are not
part of the source tree; where their behaviour decides a claim they are
modelled from the specification, and each such definition is marked
`Modelled from the spec:` in its doc comment.
-/

/-- Timestamps: a timezone-aware `datetime` instant, modelled as real-valued
seconds on an absolute axis. -/
abbrev Timestamp := ℝ

/-- Modelled from the usage in `pattern_detector.py` (the defining module
`event_store.py` is not under `src/`): one recorded tool invocation.  Only the
fields read by the pattern detector are carried (`inputs` is never inspected
by this module). -/
structure ToolEvent where
  session_id : String
  tool_name : String
  timestamp : Timestamp
  success : Bool

/-- Modelled from the usage in `pattern_detector.py` and spec §3 (the defining
module `sequence_matcher.py` is not under `src/`): a mined subsequence
candidate. -/
structure SequenceMatch where
  sequence : List String
  occurrences : ℕ
  session_indices : List ℕ
  length : ℕ

/-- The `DetectedPattern` dataclass of `pattern_detector.py`. -/
structure DetectedPattern where
  id : String
  tool_sequence : List String
  occurrence_count : ℕ
  confidence : ℝ
  session_ids : List String
  first_seen : Timestamp
  last_seen : Timestamp
  success_rate : ℝ := 1
  suggested_name : String := ""
  suggested_description : String := ""

/-- Python's `(now - last_seen).days`: the whole number of days in the
timedelta, floored towards negative infinity. -/
noncomputable def days_since (last_seen now : Timestamp) : ℤ :=
  ⌊(now - last_seen) / 86400⌋

/-- The `_calculate_confidence` method of `PatternDetector`
(`src/core/pattern_detector.py` lines 221-268).  `first_seen` is accepted and
ignored exactly as in the source. -/
noncomputable def calculate_confidence (occurrence_count : ℕ) (sequence_length : ℕ)
    (success_rate : ℝ) (first_seen last_seen now : Timestamp) : ℝ :=
  let occurrence_score : ℝ := min 1 (Real.log (occurrence_count + 1) / Real.log 10)
  let length_score : ℝ :=
    if 3 ≤ sequence_length ∧ sequence_length ≤ 5 then 1
    else if sequence_length = 2 then 0.7
    else if 5 < sequence_length then max 0.5 (1 - ((sequence_length : ℝ) - 5) * 0.1)
    else 0.5
  let success_score : ℝ := success_rate
  let days_since_last : ℤ := days_since last_seen now
  let recency_score : ℝ := max 0.5 (1 - (days_since_last : ℝ) * 0.05)
  min 1 (max 0
    (occurrence_score * 0.4 + length_score * 0.2 + success_score * 0.25 + recency_score * 0.15))

/-- Clamping of a value to the unit interval, as the spec words it. -/
noncomputable def clamp01 (x : ℝ) : ℝ := min 1 (max 0 x)

/-- Modelled from the spec's words (§4.3 step 5), for comparison with
`calculate_confidence`: the weighted blend in which each of the four terms is
explicitly clamped to the unit interval before weighting, and the result is
clamped again. -/
noncomputable def spec_confidence (occurrence_count : ℕ) (sequence_length : ℕ)
    (success_rate : ℝ) (last_seen now : Timestamp) : ℝ :=
  let occurrence_term : ℝ := clamp01 (min 1 (Real.log (occurrence_count + 1) / Real.log 10))
  let length_term : ℝ := clamp01
    (if 3 ≤ sequence_length ∧ sequence_length ≤ 5 then 1
     else if sequence_length = 2 then 0.7
     else if 5 < sequence_length then max 0.5 (1 - ((sequence_length : ℝ) - 5) * 0.1)
     else 0.5)
  let success_term : ℝ := clamp01 success_rate
  let recency_term : ℝ := clamp01 (max 0.5 (1 - (days_since last_seen now : ℝ) * 0.05))
  clamp01 (0.4 * occurrence_term + 0.2 * length_term + 0.25 * success_term + 0.15 * recency_term)

/-- Rotation of a 32-bit word right by `n` bits (SHA-256 building block). -/
def rotr32 (n x : ℕ) : ℕ := ((x >>> n) ||| (x <<< (32 - n))) % 2 ^ 32

/-- The SHA-256 message-schedule function sigma-zero. -/
def shaSmallSigma0 (x : ℕ) : ℕ := rotr32 7 x ^^^ rotr32 18 x ^^^ (x >>> 3)

/-- The SHA-256 message-schedule function sigma-one. -/
def shaSmallSigma1 (x : ℕ) : ℕ := rotr32 17 x ^^^ rotr32 19 x ^^^ (x >>> 10)

/-- The SHA-256 compression function big-sigma-zero. -/
def shaBigSigma0 (x : ℕ) : ℕ := rotr32 2 x ^^^ rotr32 13 x ^^^ rotr32 22 x

/-- The SHA-256 compression function big-sigma-one. -/
def shaBigSigma1 (x : ℕ) : ℕ := rotr32 6 x ^^^ rotr32 11 x ^^^ rotr32 25 x

/-- The 64 SHA-256 round constants (FIPS 180-4). -/
def sha256K : List ℕ :=
  [1116352408, 1899447441, 3049323471, 3921009573, 961987163, 1508970993,
   2453635748, 2870763221, 3624381080, 310598401, 607225278, 1426881987,
   1925078388, 2162078206, 2614888103, 3248222580, 3835390401, 4022224774,
   264347078, 604807628, 770255983, 1249150122, 1555081692, 1996064986,
   2554220882, 2821834349, 2952996808, 3210313671, 3336571891, 3584528711,
   113926993, 338241895, 666307205, 773529912, 1294757372, 1396182291,
   1695183700, 1986661051, 2177026350, 2456956037, 2730485921, 2820302411,
   3259730800, 3345764771, 3516065817, 3600352804, 4094571909, 275423344,
   430227734, 506948616, 659060556, 883997877, 958139571, 1322822218,
   1537002063, 1747873779, 1955562222, 2024104815, 2227730452, 2361852424,
   2428436474, 2756734187, 3204031479, 3329325298]

/-- The 8 initial SHA-256 hash values (FIPS 180-4). -/
def sha256H0 : List ℕ :=
  [1779033703, 3144134277, 1013904242, 2773480762,
   1359893119, 2600822924, 528734635, 1541459225]

/-- Big-endian byte decomposition of `v` into `n` bytes. -/
def bigEndianBytes (n v : ℕ) : List ℕ :=
  (List.range n).map (fun i => (v >>> (8 * (n - 1 - i))) % 256)

/-- SHA-256 padding: append the 0x80 marker, zero bytes up to 56 mod 64, and
the 64-bit big-endian bit length. -/
def shaPad (msg : List ℕ) : List ℕ :=
  msg ++ [0x80] ++ List.replicate ((119 - msg.length % 64) % 64) 0 ++
    bigEndianBytes 8 (8 * msg.length)

/-- Splitting of a byte list into 64-byte blocks. -/
def toBlocks : List ℕ → List (List ℕ)
  | [] => []
  | b :: rest => ((b :: rest).take 64) :: toBlocks (rest.drop 63)
termination_by l => l.length
decreasing_by simp [List.length_drop]; omega

/-- The sixteen 32-bit big-endian words of a 64-byte block. -/
def wordsOfBlock (block : List ℕ) : List ℕ :=
  (List.range 16).map (fun i =>
    (block.getD (4 * i) 0) <<< 24 ||| (block.getD (4 * i + 1) 0) <<< 16 |||
      (block.getD (4 * i + 2) 0) <<< 8 ||| block.getD (4 * i + 3) 0)

/-- One extension step of the SHA-256 message schedule. -/
def extendScheduleStep (w : List ℕ) : List ℕ :=
  w ++ [(w.getD (w.length - 16) 0 + shaSmallSigma0 (w.getD (w.length - 15) 0) +
          w.getD (w.length - 7) 0 + shaSmallSigma1 (w.getD (w.length - 2) 0)) % 2 ^ 32]

/-- The full 64-word SHA-256 message schedule of one block. -/
def messageSchedule (block : List ℕ) : List ℕ :=
  (List.range 48).foldl (fun w _ => extendScheduleStep w) (wordsOfBlock block)

/-- The eight 32-bit working variables of the SHA-256 compression loop. -/
structure ShaState where
  a : ℕ
  b : ℕ
  c : ℕ
  d : ℕ
  e : ℕ
  f : ℕ
  g : ℕ
  h : ℕ

/-- One round of the SHA-256 compression loop; `kw` pairs the round constant
with the schedule word. -/
def shaRound (st : ShaState) (kw : ℕ × ℕ) : ShaState :=
  let ch := (st.e &&& st.f) ^^^ ((0xffffffff ^^^ st.e) &&& st.g)
  let temp1 := (st.h + shaBigSigma1 st.e + ch + kw.1 + kw.2) % 2 ^ 32
  let maj := (st.a &&& st.b) ^^^ (st.a &&& st.c) ^^^ (st.b &&& st.c)
  let temp2 := (shaBigSigma0 st.a + maj) % 2 ^ 32
  ⟨(temp1 + temp2) % 2 ^ 32, st.a, st.b, st.c, (st.d + temp1) % 2 ^ 32, st.e, st.f, st.g⟩

/-- SHA-256 compression of one 64-byte block into the running hash values. -/
def compressBlock (hs : List ℕ) (block : List ℕ) : List ℕ :=
  let st0 : ShaState :=
    ⟨hs.getD 0 0, hs.getD 1 0, hs.getD 2 0, hs.getD 3 0,
      hs.getD 4 0, hs.getD 5 0, hs.getD 6 0, hs.getD 7 0⟩
  let st := (sha256K.zip (messageSchedule block)).foldl shaRound st0
  List.zipWith (fun x y => (x + y) % 2 ^ 32) hs [st.a, st.b, st.c, st.d, st.e, st.f, st.g, st.h]

/-- SHA-256 digest (32 bytes) of a byte message. -/
def sha256Bytes (msg : List ℕ) : List ℕ :=
  ((toBlocks (shaPad msg)).foldl compressBlock sha256H0).flatMap (bigEndianBytes 4)

/-- UTF-8 encoding of one character, as Python's `str.encode()` produces. -/
def utf8EncodeCharBytes (c : Char) : List ℕ :=
  let n := c.toNat
  if n < 0x80 then [n]
  else if n < 0x800 then [0xc0 ||| (n >>> 6), 0x80 ||| (n &&& 0x3f)]
  else if n < 0x10000 then
    [0xe0 ||| (n >>> 12), 0x80 ||| ((n >>> 6) &&& 0x3f), 0x80 ||| (n &&& 0x3f)]
  else
    [0xf0 ||| (n >>> 18), 0x80 ||| ((n >>> 12) &&& 0x3f), 0x80 ||| ((n >>> 6) &&& 0x3f),
     0x80 ||| (n &&& 0x3f)]

/-- UTF-8 bytes of a string. -/
def utf8Bytes (s : String) : List ℕ := s.data.flatMap utf8EncodeCharBytes

/-- Lower-case hexadecimal rendering of one byte. -/
def hexByte (b : ℕ) : String := String.mk [Nat.digitChar (b / 16), Nat.digitChar (b % 16)]

/-- Python's `hashlib.sha256(s.encode()).hexdigest()`. -/
def sha256hex (s : String) : String := String.join ((sha256Bytes (utf8Bytes s)).map hexByte)

/-- The `_generate_pattern_id` method (`pattern_detector.py` lines 270-275):
the first 12 hex characters of the SHA-256 digest of the tool names joined
with the separator "-". -/
def generate_pattern_id (sequence : List String) : String :=
  (sha256hex (String.intercalate "-" sequence)).take 12

/-- The `TOOL_VERBS` mapping of `PatternDetector`, as an association list. -/
def TOOL_VERBS : List (String × String) :=
  [("Read", "read"), ("Write", "write"), ("Edit", "edit"), ("Bash", "run"),
   ("Grep", "search"), ("Glob", "find"), ("WebFetch", "fetch"),
   ("WebSearch", "search"), ("Task", "delegate")]

/-- Python's `TOOL_VERBS.get(t, t.lower())`. -/
def tool_verb (t : String) : String := (TOOL_VERBS.lookup t).getD t.toLower

/-- The `_generate_name` method (`pattern_detector.py` lines 277-289). -/
def generate_name (tools : List String) : String :=
  match tools with
  | [] => "unknown-workflow"
  | t :: ts =>
    let first_verb := tool_verb t
    let last_verb := tool_verb ((t :: ts).getLast (List.cons_ne_nil t ts))
    if (t :: ts).length = 2 then first_verb ++ "-then-" ++ last_verb
    else first_verb ++ "-and-" ++ last_verb

/-- The `_generate_description` method (`pattern_detector.py` lines 291-297). -/
def generate_description (tools : List String) : String :=
  match tools with
  | [] => "Unknown workflow pattern"
  | _ => "Workflow pattern: " ++ String.intercalate ", " tools

/-- The `_find_sequence_in_session` method (`pattern_detector.py` lines
207-219): the leftmost contiguous run of events whose tool names equal the
sequence, or the empty list when there is none. -/
def find_sequence_in_session (sequence : List String) : List ToolEvent → List ToolEvent
  | [] => []
  | e :: rest =>
    if sequence.length ≤ (e :: rest).length ∧
        ((e :: rest).take sequence.length).map ToolEvent.tool_name = sequence then
      (e :: rest).take sequence.length
    else
      find_sequence_in_session sequence rest

/-- The running accumulators of the session loop in `_create_pattern`
(`pattern_detector.py` lines 145-173). -/
structure ScanState where
  session_ids : List String
  first_seen : Option Timestamp
  last_seen : Option Timestamp
  success_count : ℕ
  total_count : ℕ

/-- The accumulators before the first loop iteration. -/
def initialScanState : ScanState := ⟨[], none, none, 0, 0⟩

/-- One iteration of the session loop of `_create_pattern`
(`pattern_detector.py` lines 152-173): out-of-range indices are skipped, an
empty session is skipped, a session whose events do not contain the sequence
contributes only its session id, and a located run updates the counters and
the running first/last bounds. -/
noncomputable def scan_step (sequence : List String) (event_sessions : List (List ToolEvent))
    (st : ScanState) (session_idx : ℕ) : ScanState :=
  if session_idx < event_sessions.length then
    match event_sessions.getD session_idx [] with
    | [] => st
    | e0 :: es =>
      let st1 : ScanState := { st with session_ids := st.session_ids ++ [e0.session_id] }
      match find_sequence_in_session sequence (e0 :: es) with
      | [] => st1
      | f :: fs =>
        let seq_end := (f :: fs).getLast (List.cons_ne_nil f fs)
        { st1 with
          total_count := st1.total_count + 1
          success_count :=
            if (f :: fs).all (fun e => e.success) then st1.success_count + 1
            else st1.success_count
          first_seen := some (match st1.first_seen with
            | none => f.timestamp
            | some a => if f.timestamp < a then f.timestamp else a)
          last_seen := some (match st1.last_seen with
            | none => seq_end.timestamp
            | some b => if b < seq_end.timestamp then seq_end.timestamp else b) }
  else st

/-- The `_create_pattern` method (`pattern_detector.py` lines 136-205).
Python's `list(set(session_ids))` is modelled as deduplication; the two
`datetime.now(timezone.utc)` fallback calls are modelled by the single ambient
instant `now`, which is also passed to the confidence computation. -/
noncomputable def create_pattern (m : SequenceMatch)
    (event_sessions : List (List ToolEvent)) (now : Timestamp) : Option DetectedPattern :=
  if m.session_indices = [] then none
  else
    let st := m.session_indices.foldl (scan_step m.sequence event_sessions) initialScanState
    let bounds : Timestamp × Timestamp :=
      match st.first_seen, st.last_seen with
      | some a, some b => (a, b)
      | _, _ => (now, now)
    let success_rate : ℝ :=
      if 0 < st.total_count then (st.success_count : ℝ) / (st.total_count : ℝ) else 1
    some
      { id := generate_pattern_id m.sequence
        tool_sequence := m.sequence
        occurrence_count := m.occurrences
        confidence := calculate_confidence m.occurrences m.length success_rate
          bounds.1 bounds.2 now
        session_ids := st.session_ids.dedup
        first_seen := bounds.1
        last_seen := bounds.2
        success_rate := success_rate
        suggested_name := generate_name m.sequence
        suggested_description := generate_description m.sequence }

/-- Whether the session loop of `_create_pattern` locates the sequence for a
given session index: the index is in range and the leftmost search in that
session's events succeeds (an empty session yields an empty search result, so
it is never located). -/
def locatedAt (sequence : List String) (event_sessions : List (List ToolEvent)) (i : ℕ) : Bool :=
  decide (i < event_sessions.length) &&
    !(find_sequence_in_session sequence (event_sessions.getD i [])).isEmpty

/-- Whether the session loop locates the sequence at index `i` and every event
of the located run reports success. -/
def located_all_success (sequence : List String) (event_sessions : List (List ToolEvent))
    (i : ℕ) : Bool :=
  locatedAt sequence event_sessions i &&
    (find_sequence_in_session sequence (event_sessions.getD i [])).all (fun e => e.success)

/-- The number of referenced sessions in which the match's sequence is
located (a session referenced twice counts twice, as in the loop). -/
def total_located (m : SequenceMatch) (event_sessions : List (List ToolEvent)) : ℕ :=
  m.session_indices.countP (locatedAt m.sequence event_sessions)

/-- The number of referenced sessions whose located run is entirely
successful. -/
def success_located (m : SequenceMatch) (event_sessions : List (List ToolEvent)) : ℕ :=
  m.session_indices.countP (located_all_success m.sequence event_sessions)

/-- Ordering of events by timestamp, used to state that a session trace is
ordered by timestamp ascending. -/
def event_le (a b : ToolEvent) : Prop := a.timestamp ≤ b.timestamp

/-- Invariant of the session loop: the running first/last bounds are either
both unset or both set with first at or before last. -/
def boundsOk (st : ScanState) : Prop :=
  (st.first_seen = none ∧ st.last_seen = none) ∨
  (∃ a b, st.first_seen = some a ∧ st.last_seen = some b ∧ a ≤ b)

/-- Modelled from the spec (§4.1, §6; `event_store.py` is not under `src/`):
the Event Log collaborator.  Its two queries are read-only, side-effect-free
and idempotent, so they are modelled as pure functions of the project filter,
the lookback window and (for the first) the minimum sequence length. -/
structure EventStore where
  get_tool_sequences : Option String → ℕ → ℕ → List (List String)
  get_events_with_inputs : Option String → ℕ → List (List ToolEvent)

/-- Modelled from the spec (§7): the configuration-error outcome surfaced for
invalid thresholds. -/
inductive ConfigError where
  | invalidThresholds
deriving DecidableEq

/-- Modelled from the spec (§4.2): the thresholds accepted by the miner —
all positive integers with `min_length ≤ max_length`. -/
abbrev validThresholds (min_length max_length min_occurrences : ℕ) : Prop :=
  0 < min_length ∧ min_length ≤ max_length ∧ 0 < min_occurrences

/-- Modelled from the spec (§4.2): all contiguous windows of a session with
lengths in `[min_length, max_length]`. -/
def windowsOf (min_length max_length : ℕ) (s : List String) : List (List String) :=
  ((List.range (max_length + 1 - min_length)).map (min_length + ·)).flatMap
    (fun L => (List.range (s.length + 1 - L)).map (fun i => (s.drop i).take L))

/-- Modelled from the spec (§4.2): whether a session contains at least one
contiguous window equal to `key`. -/
def containsKey (s key : List String) : Bool :=
  (List.range (s.length + 1 - key.length)).any
    (fun i => (s.drop i).take key.length == key)

/-- Modelled from the spec (§4.2; `sequence_matcher.py` is not under `src/`):
the frequent-subsequence miner.  Each distinct candidate window is supported
by the set of sessions containing it (each session counted once); candidates
below the support threshold are dropped.  The spec leaves the output order
unspecified; deduplicated window-enumeration order is chosen here. -/
def find_common_subsequences (min_length max_length min_occurrences : ℕ)
    (sessions : List (List String)) : List SequenceMatch :=
  ((sessions.flatMap (windowsOf min_length max_length)).dedup).filterMap
    (fun key =>
      let idxs := (List.range sessions.length).filter
        (fun i => containsKey (sessions.getD i []) key)
      if min_occurrences ≤ idxs.length then
        some ⟨key, idxs.length, idxs, key.length⟩
      else none)

/-- The relation under which `patterns.sort(key=lambda p: -p.confidence)`
sorts: non-strict descending confidence. -/
def confGE (a b : DetectedPattern) : Prop := b.confidence ≤ a.confidence

noncomputable instance : DecidableRel confGE := fun a b => Real.decidableLE _ _

instance : IsTotal DetectedPattern confGE := ⟨fun a b => le_total b.confidence a.confidence⟩

instance : IsTrans DetectedPattern confGE := ⟨fun _ _ _ hab hbc => le_trans hbc hab⟩

/-- Python's stable `patterns.sort(key=lambda p: -p.confidence)`
(`pattern_detector.py` line 132), modelled as insertion sort with the
non-strict descending-confidence relation — the stable sort on a total
preorder is unique, so this computes the same list as Timsort. -/
noncomputable def sortPatterns (l : List DetectedPattern) : List DetectedPattern :=
  List.insertionSort confGE l

/-- The scored-but-not-yet-sorted patterns of one run (`pattern_detector.py`
lines 124-129): every miner match scored in the miner's emission order, with
absent results dropped. -/
noncomputable def scored_patterns (store : EventStore) (project_path : Option String)
    (min_occurrences min_sequence_length max_sequence_length lookback_days : ℕ)
    (now : Timestamp) : List DetectedPattern :=
  (find_common_subsequences min_sequence_length max_sequence_length min_occurrences
      (store.get_tool_sequences project_path lookback_days min_sequence_length)).filterMap
    (fun m =>
      create_pattern m (store.get_events_with_inputs project_path lookback_days) now)

/-- The `detect_patterns` method (`pattern_detector.py` lines 75-134).  The
tool-sequence fetch happens first, exactly as in the source; the threshold
validation is modelled from the spec (§4.2, §7) at the point where the source
constructs the miner.  The second component counts the Event Log read calls
performed before returning or raising. -/
noncomputable def detect_patterns (store : EventStore) (project_path : Option String)
    (min_occurrences min_sequence_length max_sequence_length lookback_days : ℕ)
    (now : Timestamp) : Except ConfigError (List DetectedPattern) × ℕ :=
  let sequences := store.get_tool_sequences project_path lookback_days min_sequence_length
  if sequences.isEmpty then (Except.ok [], 1)
  else if ¬ validThresholds min_sequence_length max_sequence_length min_occurrences then
    (Except.error ConfigError.invalidThresholds, 1)
  else
    let mined := find_common_subsequences min_sequence_length max_sequence_length
      min_occurrences sequences
    if mined.isEmpty then (Except.ok [], 1)
    else
      let event_sessions := store.get_events_with_inputs project_path lookback_days
      let patterns := mined.filterMap (fun m => create_pattern m event_sessions now)
      (Except.ok (sortPatterns patterns), 2)

/-- The list a caller receives from one run: the payload on success, nothing
on a configuration error. -/
def okPatterns : Except ConfigError (List DetectedPattern) → List DetectedPattern
  | Except.ok l => l
  | Except.error _ => []

/-- Selection of the patterns carrying one exact confidence value, used to
state sort stability. -/
noncomputable def confEq (c : ℝ) (p : DetectedPattern) : Bool :=
  @decide (p.confidence = c) (Real.decidableEq _ _)

theorem calculate_confidence_nonneg (occurrence_count sequence_length : ℕ)
    (success_rate : ℝ) (first_seen last_seen now : Timestamp) :
    0 ≤ calculate_confidence occurrence_count sequence_length success_rate
        first_seen last_seen now := by
  unfold calculate_confidence
  exact le_min (by norm_num) (le_max_left 0 _)

theorem calculate_confidence_le_one (occurrence_count sequence_length : ℕ)
    (success_rate : ℝ) (first_seen last_seen now : Timestamp) :
    calculate_confidence occurrence_count sequence_length success_rate
        first_seen last_seen now ≤ 1 := by
  unfold calculate_confidence
  exact min_le_left 1 _

/-- C1: for every input to the scorer's confidence computation — in particular
for every valid one, including `occurrence_count = 1` and `success_rate` equal
to `0` or `1` — the resulting confidence lies in the closed interval `[0, 1]`. -/
theorem c1_confidence_in_unit_interval (occurrence_count sequence_length : ℕ)
    (success_rate : ℝ) (first_seen last_seen now : Timestamp) :
    0 ≤ calculate_confidence occurrence_count sequence_length success_rate
        first_seen last_seen now ∧
    calculate_confidence occurrence_count sequence_length success_rate
        first_seen last_seen now ≤ 1 :=
  ⟨calculate_confidence_nonneg _ _ _ _ _ _, calculate_confidence_le_one _ _ _ _ _ _⟩

theorem clamp01_eq_self {x : ℝ} (h0 : 0 ≤ x) (h1 : x ≤ 1) : clamp01 x = x := by
  unfold clamp01
  rw [max_eq_right h0, min_eq_right h1]

/-- C2: the confidence computed by the scorer equals the spec's formula (each
term clamped to the unit interval before weighting, final result clamped
again) whenever the inputs are valid: a success rate in the unit interval and
a non-negative elapsed-day count. -/
theorem c2_confidence_matches_spec_formula (occ len : ℕ) (sr : ℝ)
    (fs ls now : Timestamp) (h0 : 0 ≤ sr) (h1 : sr ≤ 1)
    (hd : 0 ≤ days_since ls now) :
    calculate_confidence occ len sr fs ls now = spec_confidence occ len sr ls now := by
  have hone : (1 : ℝ) ≤ (occ : ℝ) + 1 := le_add_of_nonneg_left (Nat.cast_nonneg occ)
  have hoccnn : (0 : ℝ) ≤ min 1 (Real.log ((occ : ℝ) + 1) / Real.log 10) :=
    le_min (by norm_num)
      (div_nonneg (Real.log_nonneg hone) (Real.log_nonneg (by norm_num)))
  have hoccle : min 1 (Real.log ((occ : ℝ) + 1) / Real.log 10) ≤ 1 := min_le_left _ _
  have hdr : (0 : ℝ) ≤ ((days_since ls now : ℤ) : ℝ) := by exact_mod_cast hd
  have hrecnn : (0 : ℝ) ≤ max 0.5 (1 - ((days_since ls now : ℤ) : ℝ) * 0.05) :=
    le_trans (by norm_num) (le_max_left _ _)
  have hrecle : max 0.5 (1 - ((days_since ls now : ℤ) : ℝ) * 0.05) ≤ 1 :=
    max_le (by norm_num) (by nlinarith)
  simp only [calculate_confidence, spec_confidence]
  rw [clamp01_eq_self hoccnn hoccle, clamp01_eq_self h0 h1, clamp01_eq_self hrecnn hrecle]
  have hl : (0 : ℝ) ≤ (if 3 ≤ len ∧ len ≤ 5 then (1 : ℝ)
        else if len = 2 then 0.7
        else if 5 < len then max 0.5 (1 - ((len : ℝ) - 5) * 0.1) else 0.5) ∧
      (if 3 ≤ len ∧ len ≤ 5 then (1 : ℝ)
        else if len = 2 then 0.7
        else if 5 < len then max 0.5 (1 - ((len : ℝ) - 5) * 0.1) else 0.5) ≤ 1 := by
    split_ifs with hA hB hC
    · norm_num
    · norm_num
    · have h5 : (5 : ℝ) < (len : ℝ) := by exact_mod_cast hC
      constructor
      · exact le_trans (by norm_num) (le_max_left _ _)
      · exact max_le (by norm_num) (by nlinarith)
    · norm_num
  rw [clamp01_eq_self hl.1 hl.2]
  unfold clamp01
  congr 1
  congr 1
  ring

/-- C3: holding length, success rate and the recency inputs fixed, the
confidence is monotonically non-decreasing in the occurrence count; holding
occurrence count, length and success rate fixed, it is non-increasing in
`days_since(last_seen, now)`. -/
theorem c3_confidence_monotonicity :
    (∀ (len : ℕ) (sr : ℝ) (fs ls now : Timestamp) (k1 k2 : ℕ), k1 ≤ k2 →
      calculate_confidence k1 len sr fs ls now ≤ calculate_confidence k2 len sr fs ls now) ∧
    (∀ (occ len : ℕ) (sr : ℝ) (fs ls1 now1 ls2 now2 : Timestamp),
      days_since ls1 now1 ≤ days_since ls2 now2 →
      calculate_confidence occ len sr fs ls2 now2 ≤ calculate_confidence occ len sr fs ls1 now1) := by
  constructor
  · intro len sr fs ls now k1 k2 hk
    simp only [calculate_confidence]
    apply min_le_min (le_refl 1)
    apply max_le_max (le_refl 0)
    have hlog : Real.log ((k1 : ℝ) + 1) ≤ Real.log ((k2 : ℝ) + 1) :=
      Real.log_le_log (by positivity) (by exact_mod_cast Nat.succ_le_succ hk)
    have hdiv : Real.log ((k1 : ℝ) + 1) / Real.log 10 ≤ Real.log ((k2 : ℝ) + 1) / Real.log 10 :=
      (div_le_div_right (Real.log_pos (by norm_num))).mpr hlog
    have hmin := min_le_min (le_refl (1 : ℝ)) hdiv
    nlinarith [hmin]
  · intro occ len sr fs ls1 now1 ls2 now2 hdays
    simp only [calculate_confidence]
    apply min_le_min (le_refl 1)
    apply max_le_max (le_refl 0)
    have hcast : ((days_since ls1 now1 : ℤ) : ℝ) ≤ ((days_since ls2 now2 : ℤ) : ℝ) := by
      exact_mod_cast hdays
    have hrec : max 0.5 (1 - ((days_since ls2 now2 : ℤ) : ℝ) * 0.05) ≤
        max 0.5 (1 - ((days_since ls1 now1 : ℤ) : ℝ) * 0.05) :=
      max_le_max (le_refl _) (by nlinarith)
    nlinarith [hrec]

theorem c2_witness :
    (0 : ℝ) ≤ 1 ∧ (1 : ℝ) ≤ 1 ∧ 0 ≤ days_since 0 0 ∧
    calculate_confidence 3 3 1 0 0 0 = spec_confidence 3 3 1 0 0 := by
  have hd : days_since (0 : Timestamp) 0 = 0 := by
    simp [days_since]
  exact ⟨by norm_num, le_refl 1, by rw [hd],
    c2_confidence_matches_spec_formula 3 3 1 0 0 0 (by norm_num) (le_refl 1) (by rw [hd])⟩

theorem c3_witness :
    (1 ≤ 2 ∧ calculate_confidence 1 3 1 0 0 0 ≤ calculate_confidence 2 3 1 0 0 0) ∧
    (days_since 0 0 ≤ days_since 0 86400 ∧
      calculate_confidence 1 3 1 0 0 86400 ≤ calculate_confidence 1 3 1 0 0 0) := by
  have hd0 : days_since (0 : Timestamp) 0 = 0 := by simp [days_since]
  have hd1 : days_since (0 : Timestamp) 86400 = 1 := by
    simp only [days_since, sub_zero]
    rw [div_self (by norm_num : (86400 : ℝ) ≠ 0)]
    exact Int.floor_one
  have hdle : days_since (0 : Timestamp) 0 ≤ days_since (0 : Timestamp) 86400 := by
    rw [hd0, hd1]; norm_num
  exact ⟨⟨by norm_num, c3_confidence_monotonicity.1 3 1 0 0 0 1 2 (by norm_num)⟩,
    ⟨hdle, c3_confidence_monotonicity.2 1 3 1 0 0 0 0 86400 hdle⟩⟩

/-- C9: the scorer returns absent exactly when the match carries no session
indices; in every other case — out-of-range indices merely being skipped by
the loop — a pattern is returned. -/
theorem c9_none_iff_no_session_indices (m : SequenceMatch)
    (event_sessions : List (List ToolEvent)) (now : Timestamp) :
    create_pattern m event_sessions now = none ↔ m.session_indices = [] := by
  unfold create_pattern
  by_cases h : m.session_indices = []
  · simp [h]
  · simp [h]

theorem scan_step_total (seq : List String) (sessions : List (List ToolEvent))
    (st : ScanState) (i : ℕ) :
    (scan_step seq sessions st i).total_count =
      st.total_count + (if locatedAt seq sessions i then 1 else 0) := by
  unfold scan_step locatedAt
  by_cases h : i < sessions.length
  · rw [if_pos h]
    cases hev : sessions.getD i [] with
    | nil => simp [hev, find_sequence_in_session, h]
    | cons e0 es =>
      cases hf : find_sequence_in_session seq (e0 :: es) with
      | nil => simp [hev, hf, h]
      | cons f fs => simp [hev, hf, h]
  · simp [h]

theorem scan_step_success (seq : List String) (sessions : List (List ToolEvent))
    (st : ScanState) (i : ℕ) :
    (scan_step seq sessions st i).success_count =
      st.success_count + (if located_all_success seq sessions i then 1 else 0) := by
  unfold scan_step located_all_success locatedAt
  by_cases h : i < sessions.length
  · rw [if_pos h]
    cases hev : sessions.getD i [] with
    | nil => simp [hev, find_sequence_in_session, h]
    | cons e0 es =>
      cases hf : find_sequence_in_session seq (e0 :: es) with
      | nil => simp [hev, hf, h]
      | cons f fs =>
        by_cases hall : (f :: fs).all (fun e => e.success)
        · simp [hev, hf, h, hall]
        · simp [hev, hf, h, hall]
  · simp [h]

theorem foldl_scan_total (seq : List String) (sessions : List (List ToolEvent))
    (idxs : List ℕ) : ∀ st : ScanState,
    (idxs.foldl (scan_step seq sessions) st).total_count =
      st.total_count + idxs.countP (locatedAt seq sessions) := by
  induction idxs with
  | nil => intro st; simp
  | cons i is ih =>
    intro st
    rw [List.foldl_cons, ih, scan_step_total, List.countP_cons]
    by_cases h : locatedAt seq sessions i <;> simp [h] <;> omega

theorem foldl_scan_success (seq : List String) (sessions : List (List ToolEvent))
    (idxs : List ℕ) : ∀ st : ScanState,
    (idxs.foldl (scan_step seq sessions) st).success_count =
      st.success_count + idxs.countP (located_all_success seq sessions) := by
  induction idxs with
  | nil => intro st; simp
  | cons i is ih =>
    intro st
    rw [List.foldl_cons, ih, scan_step_success, List.countP_cons]
    by_cases h : located_all_success seq sessions i <;> simp [h] <;> omega

/-- C4: whenever at least one concrete occurrence is located, the emitted
success rate is the number of located runs that are entirely successful
divided by the number of located runs; in particular it is `0` when every
located run contains only failed events. -/
theorem c4_success_rate_is_ratio (m : SequenceMatch)
    (event_sessions : List (List ToolEvent)) (now : Timestamp) :
    (0 < total_located m event_sessions →
      (create_pattern m event_sessions now).elim True (fun p =>
        p.success_rate =
          (success_located m event_sessions : ℝ) / (total_located m event_sessions : ℝ))) ∧
    (0 < total_located m event_sessions →
      (∀ i ∈ m.session_indices,
        (find_sequence_in_session m.sequence (event_sessions.getD i [])).all
          (fun e => !e.success)) →
      (create_pattern m event_sessions now).elim True (fun p => p.success_rate = 0)) := by
  have hne_of : 0 < total_located m event_sessions → m.session_indices ≠ [] := by
    intro htot hcon
    rw [total_located, hcon] at htot
    simp at htot
  have htc : ∀ _h : True,
      (m.session_indices.foldl (scan_step m.sequence event_sessions)
        initialScanState).total_count = total_located m event_sessions := by
    intro _
    rw [foldl_scan_total]
    simp [initialScanState, total_located]
  have hsc :
      (m.session_indices.foldl (scan_step m.sequence event_sessions)
        initialScanState).success_count = success_located m event_sessions := by
    rw [foldl_scan_success]
    simp [initialScanState, success_located]
  constructor
  · intro htot
    unfold create_pattern
    rw [if_neg (hne_of htot)]
    simp only [Option.elim]
    rw [htc trivial, hsc, if_pos htot]
  · intro htot hfail
    unfold create_pattern
    rw [if_neg (hne_of htot)]
    simp only [Option.elim]
    rw [htc trivial, hsc, if_pos htot]
    have hzero : success_located m event_sessions = 0 := by
      rw [success_located, List.countP_eq_zero]
      intro i hi
      unfold located_all_success
      cases hloc : locatedAt m.sequence event_sessions i with
      | false => simp
      | true =>
        simp only [Bool.true_and]
        cases hf : find_sequence_in_session m.sequence (event_sessions.getD i []) with
        | nil =>
          unfold locatedAt at hloc
          rw [hf] at hloc
          simp at hloc
        | cons f fs =>
          have hfa := hfail i hi
          rw [hf] at hfa
          simp only [List.all_cons, Bool.and_eq_true] at hfa ⊢
          intro hcon
          have h1 := hfa.1
          have h2 := hcon.1
          rw [h2] at h1
          simp at h1
    rw [hzero]
    simp

theorem c4_witness :
    0 < total_located ⟨["A"], 1, [0], 1⟩ [[⟨"s", "A", 0, false⟩]] ∧
    (∀ i ∈ ([0] : List ℕ),
      (find_sequence_in_session ["A"]
        (([[⟨"s", "A", 0, false⟩]] : List (List ToolEvent)).getD i [])).all
        (fun e => !e.success)) ∧
    (create_pattern ⟨["A"], 1, [0], 1⟩ [[⟨"s", "A", 0, false⟩]] 0).elim True
      (fun p => p.success_rate = 0) := by
  have h1 : 0 < total_located ⟨["A"], 1, [0], 1⟩ [[⟨"s", "A", 0, false⟩]] := by decide
  have h2 : ∀ i ∈ ([0] : List ℕ),
      (find_sequence_in_session ["A"]
        (([[⟨"s", "A", 0, false⟩]] : List (List ToolEvent)).getD i [])).all
        (fun e => !e.success) := by decide
  exact ⟨h1, h2, (c4_success_rate_is_ratio ⟨["A"], 1, [0], 1⟩ [[⟨"s", "A", 0, false⟩]] 0).2 h1 h2⟩

theorem scan_step_unlocated (seq : List String) (sessions : List (List ToolEvent))
    (st : ScanState) (i : ℕ)
    (h : find_sequence_in_session seq (sessions.getD i []) = []) :
    (scan_step seq sessions st i).first_seen = st.first_seen ∧
    (scan_step seq sessions st i).last_seen = st.last_seen ∧
    (scan_step seq sessions st i).total_count = st.total_count := by
  unfold scan_step
  by_cases hlen : i < sessions.length
  · rw [if_pos hlen]
    cases hev : sessions.getD i [] with
    | nil => simp [hev]
    | cons e0 es =>
      rw [hev] at h
      simp [hev, h]
  · simp [hlen]

theorem foldl_scan_unlocated (seq : List String) (sessions : List (List ToolEvent))
    (idxs : List ℕ) : ∀ st : ScanState,
    (∀ i ∈ idxs, find_sequence_in_session seq (sessions.getD i []) = []) →
    (idxs.foldl (scan_step seq sessions) st).first_seen = st.first_seen ∧
    (idxs.foldl (scan_step seq sessions) st).last_seen = st.last_seen ∧
    (idxs.foldl (scan_step seq sessions) st).total_count = st.total_count := by
  induction idxs with
  | nil => intro st _; exact ⟨rfl, rfl, rfl⟩
  | cons i is ih =>
    intro st hall
    rw [List.foldl_cons]
    have hstep := scan_step_unlocated seq sessions st i (hall i (List.mem_cons_self i is))
    have hrest := ih (scan_step seq sessions st i)
      (fun j hj => hall j (List.mem_cons_of_mem _ hj))
    exact ⟨hrest.1.trans hstep.1, hrest.2.1.trans hstep.2.1, hrest.2.2.trans hstep.2.2⟩

/-- C6: when the match's sequence cannot be located in any referenced session
(and the match does carry session indices, so a pattern is emitted), the
emitted pattern falls back to `first_seen = last_seen = now` and a success
rate of `1`. -/
theorem c6_fallback_when_unlocated (m : SequenceMatch)
    (event_sessions : List (List ToolEvent)) (now : Timestamp)
    (hne : m.session_indices ≠ [])
    (hfind : ∀ i ∈ m.session_indices,
      find_sequence_in_session m.sequence (event_sessions.getD i []) = []) :
    (create_pattern m event_sessions now).isSome = true ∧
    (create_pattern m event_sessions now).elim True (fun p =>
      p.first_seen = now ∧ p.last_seen = now ∧ p.success_rate = 1) := by
  have hfold := foldl_scan_unlocated m.sequence event_sessions m.session_indices
    initialScanState hfind
  have h1 : (m.session_indices.foldl (scan_step m.sequence event_sessions)
      initialScanState).first_seen = none := by simpa [initialScanState] using hfold.1
  have h2 : (m.session_indices.foldl (scan_step m.sequence event_sessions)
      initialScanState).last_seen = none := by simpa [initialScanState] using hfold.2.1
  have h3 : (m.session_indices.foldl (scan_step m.sequence event_sessions)
      initialScanState).total_count = 0 := by simpa [initialScanState] using hfold.2.2
  unfold create_pattern
  rw [if_neg hne]
  refine ⟨rfl, ?_⟩
  simp only [Option.elim, h1, h2, h3]
  simp

theorem c6_witness :
    ((⟨["A"], 1, [0], 1⟩ : SequenceMatch).session_indices ≠ []) ∧
    (create_pattern ⟨["A"], 1, [0], 1⟩ ([] : List (List ToolEvent)) 0).isSome = true ∧
    (create_pattern ⟨["A"], 1, [0], 1⟩ ([] : List (List ToolEvent)) 0).elim True
      (fun p => p.first_seen = 0 ∧ p.last_seen = 0 ∧ p.success_rate = 1) := by
  have hne : (⟨["A"], 1, [0], 1⟩ : SequenceMatch).session_indices ≠ [] := by simp
  have hfind : ∀ i ∈ (⟨["A"], 1, [0], 1⟩ : SequenceMatch).session_indices,
      find_sequence_in_session ["A"] (([] : List (List ToolEvent)).getD i []) = [] := by
    intro i hi
    rfl
  have h := c6_fallback_when_unlocated ⟨["A"], 1, [0], 1⟩ [] 0 hne hfind
  exact ⟨hne, h.1, h.2⟩

theorem find_sublist (seq : List String) :
    ∀ events : List ToolEvent, List.Sublist (find_sequence_in_session seq events) events := by
  intro events
  induction events with
  | nil => simp [find_sequence_in_session]
  | cons e rest ih =>
    rw [find_sequence_in_session]
    split
    · exact List.take_sublist _ _
    · exact ih.trans (List.sublist_cons_self _ _)

theorem head_le_getLast_of_pairwise (f : ToolEvent) (fs : List ToolEvent)
    (hp : List.Pairwise event_le (f :: fs)) :
    event_le f ((f :: fs).getLast (List.cons_ne_nil f fs)) := by
  rcases List.mem_cons.mp (List.getLast_mem (List.cons_ne_nil f fs)) with h | h
  · rw [h]
    exact le_refl f.timestamp
  · exact (List.pairwise_cons.mp hp).1 _ h

theorem scan_step_boundsOk (seq : List String) (sessions : List (List ToolEvent))
    (hsort : ∀ ev ∈ sessions, List.Pairwise event_le ev)
    (st : ScanState) (i : ℕ) (hok : boundsOk st) :
    boundsOk (scan_step seq sessions st i) := by
  unfold scan_step
  by_cases hlen : i < sessions.length
  · rw [if_pos hlen]
    cases hev : sessions.getD i [] with
    | nil => exact hok
    | cons e0 es =>
      dsimp only
      cases hf : find_sequence_in_session seq (e0 :: es) with
      | nil => exact hok
      | cons f fs =>
        right
        have hmem : (e0 :: es) ∈ sessions := by
          rw [← hev, List.getD_eq_getElem sessions [] hlen]
          exact List.getElem_mem hlen
        have hp : List.Pairwise event_le (e0 :: es) := hsort _ hmem
        have hrun : List.Pairwise event_le (f :: fs) := by
          have hsub := find_sublist seq (e0 :: es)
          rw [hf] at hsub
          exact hp.sublist hsub
        have hfl : event_le f ((f :: fs).getLast (List.cons_ne_nil f fs)) :=
          head_le_getLast_of_pairwise f fs hrun
        unfold event_le at hfl
        rcases hok with ⟨ha, hb⟩ | ⟨a, b, ha, hb, hab⟩
        · exact ⟨f.timestamp, ((f :: fs).getLast (List.cons_ne_nil f fs)).timestamp,
            by simp [ha], by simp [hb], hfl⟩
        · refine ⟨if f.timestamp < a then f.timestamp else a,
            if b < ((f :: fs).getLast (List.cons_ne_nil f fs)).timestamp
              then ((f :: fs).getLast (List.cons_ne_nil f fs)).timestamp else b,
            by simp [ha], by simp [hb], ?_⟩
          split_ifs <;> linarith
  · rw [if_neg hlen]
    exact hok

theorem foldl_scan_boundsOk (seq : List String) (sessions : List (List ToolEvent))
    (hsort : ∀ ev ∈ sessions, List.Pairwise event_le ev) (idxs : List ℕ) :
    ∀ st : ScanState, boundsOk st →
    boundsOk (idxs.foldl (scan_step seq sessions) st) := by
  induction idxs with
  | nil => intro st hok; exact hok
  | cons i is ih =>
    intro st hok
    rw [List.foldl_cons]
    exact ih _ (scan_step_boundsOk seq sessions hsort st i hok)

/-- C5: when every fetched session trace is ordered by timestamp ascending,
every pattern emitted by the scorer satisfies `first_seen <= last_seen`. -/
theorem c5_first_seen_le_last_seen (m : SequenceMatch)
    (event_sessions : List (List ToolEvent)) (now : Timestamp)
    (hsort : ∀ ev ∈ event_sessions, List.Pairwise event_le ev) :
    (create_pattern m event_sessions now).elim True
      (fun p => p.first_seen ≤ p.last_seen) := by
  unfold create_pattern
  by_cases hne : m.session_indices = []
  · rw [if_pos hne]
    exact trivial
  · rw [if_neg hne]
    simp only [Option.elim]
    have hok := foldl_scan_boundsOk m.sequence event_sessions hsort m.session_indices
      initialScanState (Or.inl ⟨rfl, rfl⟩)
    rcases hok with ⟨h1, h2⟩ | ⟨a, b, h1, h2, hab⟩
    · simp [h1, h2]
    · simp only [h1, h2]
      simpa using hab

theorem c5_witness :
    (∀ ev ∈ ([[⟨"s", "A", 0, true⟩]] : List (List ToolEvent)), List.Pairwise event_le ev) ∧
    (create_pattern ⟨["A"], 1, [0], 1⟩ [[⟨"s", "A", 0, true⟩]] 5).elim True
      (fun p => p.first_seen ≤ p.last_seen) := by
  have hsort : ∀ ev ∈ ([[⟨"s", "A", 0, true⟩]] : List (List ToolEvent)),
      List.Pairwise event_le ev := by
    intro ev hev
    rw [List.mem_singleton] at hev
    subst hev
    exact List.pairwise_singleton _ _
  exact ⟨hsort, c5_first_seen_le_last_seen ⟨["A"], 1, [0], 1⟩ [[⟨"s", "A", 0, true⟩]] 5 hsort⟩

/-- C10: the pattern id function is not injective — the one-element sequence
`["Read-Edit"]` and the two-element sequence `["Read", "Edit"]` join to the
same "-"-separated string, so their truncated SHA-256 ids coincide although
the sequences differ. -/
theorem c10_pattern_id_not_injective :
    generate_pattern_id ["Read-Edit"] = generate_pattern_id ["Read", "Edit"] ∧
    ["Read-Edit"] ≠ ["Read", "Edit"] := by
  have h : String.intercalate "-" ["Read-Edit"] = String.intercalate "-" ["Read", "Edit"] := by
    decide
  exact ⟨congrArg (fun s => (sha256hex s).take 12) h, by decide⟩

theorem c7_counterexample :
    ¬ validThresholds 3 2 3 ∧
    detect_patterns ⟨fun _ _ _ => [["A", "B", "C"]], fun _ _ => []⟩ none 3 3 2 7 0 =
      (Except.error ConfigError.invalidThresholds, 1) ∧
    detect_patterns ⟨fun _ _ _ => [["A", "B", "C"]], fun _ _ => []⟩ none 3 3 2 7 0 ≠
      (Except.error ConfigError.invalidThresholds, 0) := by
  refine ⟨by decide, rfl, fun h => ?_⟩
  exact absurd (congrArg Prod.snd h) (by decide)

/-- C7 (amended): with invalid thresholds, whenever the tool-sequence fetch
returns at least one session the configuration error (modelled from the spec
as raised by the miner's constructor) is surfaced after exactly one Event Log
read — the tool-sequence fetch — and before the full-event fetch; the invalid
values are never coerced.  When the fetch returns no sessions the source
returns an empty list before the thresholds are examined at all. -/
theorem c7_amended_error_after_first_read (store : EventStore)
    (project_path : Option String)
    (min_occurrences min_sequence_length max_sequence_length lookback_days : ℕ)
    (now : Timestamp)
    (hinv : ¬ validThresholds min_sequence_length max_sequence_length min_occurrences)
    (hne : (store.get_tool_sequences project_path lookback_days
      min_sequence_length).isEmpty = false) :
    detect_patterns store project_path min_occurrences min_sequence_length
      max_sequence_length lookback_days now =
      (Except.error ConfigError.invalidThresholds, 1) := by
  unfold detect_patterns
  simp only [hne, Bool.false_eq_true, if_false]
  rw [if_pos hinv]

theorem c7_witness :
    ¬ validThresholds 3 2 3 ∧
    ((⟨fun _ _ _ => [["A", "B", "C"]], fun _ _ => []⟩ : EventStore).get_tool_sequences
      none 7 3).isEmpty = false ∧
    detect_patterns ⟨fun _ _ _ => [["A", "B", "C"]], fun _ _ => []⟩ none 4 3 2 7 0 =
      (Except.error ConfigError.invalidThresholds, 1) :=
  ⟨by decide, rfl,
    c7_amended_error_after_first_read ⟨fun _ _ _ => [["A", "B", "C"]], fun _ _ => []⟩
      none 4 3 2 7 0 (by decide) rfl⟩

theorem filter_orderedInsert (c : ℝ) (a : DetectedPattern) (l : List DetectedPattern) :
    (List.orderedInsert confGE a l).filter (confEq c) =
      if confEq c a then a :: l.filter (confEq c) else l.filter (confEq c) := by
  induction l with
  | nil =>
    rw [List.orderedInsert_nil]
    by_cases h : confEq c a <;> simp [h, List.filter]
  | cons b t ih =>
    rw [List.orderedInsert]
    by_cases hr : confGE a b
    · rw [if_pos hr, List.filter_cons]
    · rw [if_neg hr, List.filter_cons, ih]
      by_cases hca : confEq c a = true
      · have hb : confEq c b = false := by
          unfold confEq at hca ⊢
          rw [decide_eq_true_eq] at hca
          rw [decide_eq_false_iff_not]
          unfold confGE at hr
          have hlt : a.confidence < b.confidence := not_le.mp hr
          intro hbc
          linarith
        simp [hca, hb, List.filter_cons]
      · simp [hca, List.filter_cons]

theorem filter_insertionSort (c : ℝ) (l : List DetectedPattern) :
    (List.insertionSort confGE l).filter (confEq c) = l.filter (confEq c) := by
  induction l with
  | nil => rfl
  | cons a t ih =>
    rw [List.insertionSort, filter_orderedInsert, List.filter_cons, ih]

theorem detect_eq_sorted_scored (store : EventStore) (project_path : Option String)
    (min_occurrences min_sequence_length max_sequence_length lookback_days : ℕ)
    (now : Timestamp)
    (hv : validThresholds min_sequence_length max_sequence_length min_occurrences) :
    okPatterns (detect_patterns store project_path min_occurrences min_sequence_length
      max_sequence_length lookback_days now).1 =
    sortPatterns (scored_patterns store project_path min_occurrences min_sequence_length
      max_sequence_length lookback_days now) := by
  unfold detect_patterns scored_patterns
  by_cases h1 : (store.get_tool_sequences project_path lookback_days
      min_sequence_length).isEmpty
  · have h1' : store.get_tool_sequences project_path lookback_days min_sequence_length = [] :=
      List.isEmpty_iff.mp h1
    simp only [h1, if_true, h1']
    rfl
  · simp only [h1, Bool.false_eq_true, if_false]
    rw [if_neg (not_not_intro hv)]
    by_cases h2 : (find_common_subsequences min_sequence_length max_sequence_length
        min_occurrences (store.get_tool_sequences project_path lookback_days
          min_sequence_length)).isEmpty
    · have h2' := List.isEmpty_iff.mp h2
      simp only [h2, if_true, h2']
      rfl
    · simp only [h2, Bool.false_eq_true, if_false]
      rfl

/-- C8: on every run with valid thresholds, the caller-visible list is sorted
by descending confidence, and the sort is stable — for every confidence
value, the patterns carrying it appear in exactly the order in which their
matches were scored from the miner's output. -/
theorem c8_detect_sorted_and_stable (store : EventStore) (project_path : Option String)
    (min_occurrences min_sequence_length max_sequence_length lookback_days : ℕ)
    (now : Timestamp)
    (hv : validThresholds min_sequence_length max_sequence_length min_occurrences) :
    List.Sorted confGE (okPatterns (detect_patterns store project_path min_occurrences
      min_sequence_length max_sequence_length lookback_days now).1) ∧
    ∀ c : ℝ,
      (okPatterns (detect_patterns store project_path min_occurrences min_sequence_length
        max_sequence_length lookback_days now).1).filter (confEq c) =
      (scored_patterns store project_path min_occurrences min_sequence_length
        max_sequence_length lookback_days now).filter (confEq c) := by
  have hkey := detect_eq_sorted_scored store project_path min_occurrences
    min_sequence_length max_sequence_length lookback_days now hv
  constructor
  · rw [hkey]
    exact List.sorted_insertionSort confGE _
  · intro c
    rw [hkey]
    exact filter_insertionSort c _

theorem c8_witness :
    validThresholds 2 10 3 ∧
    List.Sorted confGE (okPatterns (detect_patterns ⟨fun _ _ _ => [], fun _ _ => []⟩
      none 3 2 10 7 0).1) ∧
    ∀ c : ℝ,
      (okPatterns (detect_patterns ⟨fun _ _ _ => [], fun _ _ => []⟩ none 3 2 10 7 0).1).filter
        (confEq c) =
      (scored_patterns ⟨fun _ _ _ => [], fun _ _ => []⟩ none 3 2 10 7 0).filter (confEq c) := by
  have hv : validThresholds 2 10 3 := by decide
  have h := c8_detect_sorted_and_stable ⟨fun _ _ _ => [], fun _ _ => []⟩ none 3 2 10 7 0 hv
  exact ⟨hv, h.1, h.2⟩
